import Mathlib

/- Verification of the nap master/slave database routing layer.

   The Go code is embedded shallowly:
   - `*sql.DB`, `*sql.Stmt` handles and query arguments are opaque type
     parameters `κ`, `η`, `α`;
   - the uint64 counter is a `Nat` reduced modulo `2 ^ 64` wherever the Go
     code performs uint64 arithmetic;
   - fallible collaborator calls (`sql.Open`, `Prepare`, `Close`, `Ping`)
     are supplied as result functions, errors being `Option ε` (nil error =
     `none`) or `Except ε`;
   - Go strings are `List Char`. -/

namespace Nap

/-- DB from db.go: a logical database holding the physical databases `pdbs`
    (opaque handles of type `κ`) and the uint64 counter `count`. -/
structure GoDB (κ : Type) where
  pdbs : List κ
  count : Nat
deriving DecidableEq

/-- The replica selector, from `func (db *DB) slave(n int) int`:
    if `n <= 1` return 0, else
    `int(1 + (atomic.AddUint64(&db.count, 1) % uint64(n-1)))`.
    Input is the current counter value and the Go int `n`; output is the new
    counter value and the returned index.  `atomic.AddUint64` stores and
    returns `count + 1` modulo 2^64; `uint64(n-1)` reduces the nonnegative
    `n-1` modulo 2^64; the `uint64` addition `1 + _` is also modulo 2^64. -/
def slave (count : Nat) (n : Int) : Nat × Int :=
  if n ≤ 1 then
    (count, 0)
  else
    ((count + 1) % 2 ^ 64,
     (((1 + ((count + 1) % 2 ^ 64) % ((n - 1).toNat % 2 ^ 64)) % 2 ^ 64 : Nat) : Int))

/-- `db.slave(len(db.pdbs))` together with the counter write-back:
    the state after the call and the selected index. -/
def DB.slaveCall (db : GoDB κ) : GoDB κ × Int :=
  (⟨db.pdbs, (slave db.count ((db.pdbs.length : Int))).1⟩,
   (slave db.count ((db.pdbs.length : Int))).2)

/-- Modelled from the spec: the scatter executor (its source file is not in
    the repository snapshot; only its callers and its test are).  Per the
    spec, `scatter(n, act)` runs the action once for every index in `[0,n)`
    with no short-circuiting, waits for all of them, and returns success iff
    every invocation succeeded, otherwise one of the observed errors.
    `scatterAux act i k s` runs indices `i, i+1, ..., i+k-1`, threading the
    mutable state `s`, and returns the final state, the first error observed
    (a canonical choice among the observed errors), and the list of indices
    invoked, in completion order before the call returns. -/
def scatterAux (act : Nat → σ → σ × Option ε) : Nat → Nat → σ → σ × Option ε × List Nat
  | _, 0, s => (s, none, [])
  | i, k + 1, s =>
    let r1 := act i s
    let r2 := scatterAux act (i + 1) k r1.1
    (r2.1, (match r1.2 with | some e => some e | none => r2.2.1), i :: r2.2.2)

/-- Modelled from the spec: `scatter(n, act)`. -/
def scatter (n : Nat) (act : Nat → σ → σ × Option ε) (s : σ) : σ × Option ε × List Nat :=
  scatterAux act 0 n s

/-- The first error among `errs i, errs (i+1), ..., errs (i+k-1)`:
    the canonical error a scatter of stateless-error actions reports. -/
def firstErr (errs : Nat → Option ε) : Nat → Nat → Option ε
  | _, 0 => none
  | i, k + 1 =>
    match errs i with
    | some e => some e
    | none => firstErr errs (i + 1) k

/-- `func (db *DB) Close() error`:
    `scatter(len(db.pdbs), func(i int) error { return db.pdbs[i].Close() })`.
    `ce i` is the collaborator result of `db.pdbs[i].Close()`.  The full
    version keeps scatter's invocation trace; `DB.Close` is the returned
    error. -/
def DB.CloseFull (ce : Nat → Option ε) (db : GoDB κ) : Unit × Option ε × List Nat :=
  scatter db.pdbs.length (fun i s => (s, ce i)) ()

/-- The error returned by `db.Close()`. -/
def DB.Close (ce : Nat → Option ε) (db : GoDB κ) : Option ε :=
  (DB.CloseFull ce db).2.1

/-- `func (db *DB) Ping() error`:
    `scatter(len(db.pdbs), func(i int) error { return db.pdbs[i].Ping() })`.
    `pe i` is the collaborator result of `db.pdbs[i].Ping()`. -/
def DB.PingFull (pe : Nat → Option ε) (db : GoDB κ) : Unit × Option ε × List Nat :=
  scatter db.pdbs.length (fun i s => (s, pe i)) ()

/-- The error returned by `db.Ping()`. -/
def DB.Ping (pe : Nat → Option ε) (db : GoDB κ) : Option ε :=
  (DB.PingFull pe db).2.1

/-- stmt from stmt.go: the aggregate prepared statement, holding the owning
    DB and one (nilable, hence `Option`) prepared-statement handle per
    physical database. -/
structure GoStmt (κ η : Type) where
  db : GoDB κ
  stmts : List (Option η)
deriving DecidableEq

/-- `func (s *stmt) Close() error`:
    `scatter(len(s.stmts), func(i int) error { return s.stmts[i].Close() })`.
    `sce i` is the collaborator result of `s.stmts[i].Close()`. -/
def stmtCloseFull (sce : Nat → Option ε) (s : GoStmt κ η) : Unit × Option ε × List Nat :=
  scatter s.stmts.length (fun i t => (t, sce i)) ()

/-- The error returned by `s.Close()` on an aggregate statement. -/
def stmtClose (sce : Nat → Option ε) (s : GoStmt κ η) : Option ε :=
  (stmtCloseFull sce s).2.1

/-- The state update of Prepare's scatter action for index `i`:
    `stmts[i], err = db.pdbs[i].Prepare(query)` writes slot `i` on success
    and leaves it nil on failure.  `pr i` is the collaborator result of
    `db.pdbs[i].Prepare(query)`. -/
def prepUpd (pr : Nat → Except ε η) (i : Nat) (l : List (Option η)) : List (Option η) :=
  match pr i with
  | .ok h => l.set i (some h)
  | .error _ => l

/-- The error sent by Prepare's scatter action for index `i`. -/
def prepErr (pr : Nat → Except ε η) (i : Nat) : Option ε :=
  match pr i with
  | .ok _ => none
  | .error e => some e

/-- `func (db *DB) Prepare(query string) (Stmt, error)`:
    `stmts := make([]*sql.Stmt, len(db.pdbs))` then a scatter whose action
    `i` does `stmts[i], err = db.pdbs[i].Prepare(query); return err`. -/
def DB.PrepareFull (pr : Nat → Except ε η) (db : GoDB κ) :
    List (Option η) × Option ε × List Nat :=
  scatter db.pdbs.length (fun i l => (prepUpd pr i l, prepErr pr i))
    (List.replicate db.pdbs.length none)

/-- The value returned by `db.Prepare(query)`: on any scatter error,
    `nil, err`; otherwise `&stmt{db: db, stmts: stmts}, nil`. -/
def DB.Prepare (pr : Nat → Except ε η) (db : GoDB κ) : Except ε (GoStmt κ η) :=
  match DB.PrepareFull pr db with
  | (stmts, none, _) => .ok ⟨db, stmts⟩
  | (_, some e, _) => .error e

/-- A variadic query argument: either an ordinary opaque argument of type
    `α`, or a value of the bool-backed marker type `OnlyMaster` (the type
    itself is declared outside the snapshot; stmt.go type-asserts
    `args[len(args)-1].(OnlyMaster)` and compares it with `true`). -/
inductive QArg (α : Type) where
  | value : α → QArg α
  | onlyMaster : Bool → QArg α
deriving DecidableEq

/-- `func (s *stmt) Query(args ...interface{})`, reduced to its routing:
    the triple (index of the statement handle used, arguments forwarded to
    it, counter value after the call).  If `len(args) == 0` the
    selector-chosen handle gets the (empty) arguments; else if the last
    argument type-asserts to `OnlyMaster` and equals `true`, it is dropped
    (`args = args[0:len(args)-1]`) and handle 0 is used; otherwise the
    selector-chosen handle gets the arguments unchanged. -/
def stmtQuery (s : GoStmt κ η) (args : List (QArg α)) : Int × List (QArg α) × Nat :=
  if args.length = 0 then
    let r := slave s.db.count ((s.db.pdbs.length : Int))
    (r.2, args, r.1)
  else
    match args.getLast? with
    | some (QArg.onlyMaster true) => (0, args.dropLast, s.db.count)
    | _ =>
      let r := slave s.db.count ((s.db.pdbs.length : Int))
      (r.2, args, r.1)

/-- `func (s *stmt) QueryRow(args ...interface{})`, reduced to its routing
    exactly as `stmtQuery` (the two bodies are identical except for the
    forwarded call). -/
def stmtQueryRow (s : GoStmt κ η) (args : List (QArg α)) : Int × List (QArg α) × Nat :=
  if args.length = 0 then
    let r := slave s.db.count ((s.db.pdbs.length : Int))
    (r.2, args, r.1)
  else
    match args.getLast? with
    | some (QArg.onlyMaster true) => (0, args.dropLast, s.db.count)
    | _ =>
      let r := slave s.db.count ((s.db.pdbs.length : Int))
      (r.2, args, r.1)

/-- `func (db *DB) Exec(...)` returns `db.pdbs[0].Exec(query, args...)`:
    the physical database it calls into (indexing is fallible, `none`
    models the panic on an empty slice). -/
def DB.ExecConn (db : GoDB κ) : Option κ :=
  db.pdbs.get? 0

/-- `func (db *DB) Begin()` returns `db.pdbs[0].Begin()`: the physical
    database it calls into. -/
def DB.BeginConn (db : GoDB κ) : Option κ :=
  db.pdbs.get? 0

/-- `func (s *stmt) Exec(args ...interface{})` returns
    `s.stmts[0].Exec(args...)`: the prepared-statement handle it calls
    into. -/
def stmtExecHandle (s : GoStmt κ η) : Option (Option η) :=
  s.stmts.get? 0

/-- `strings.Split(s, ";")` on a Go string modelled as `List Char`:
    the list of chunks between the semicolons (always nonempty;
    splitting the empty string gives one empty chunk). -/
def splitSemi : List Char → List (List Char)
  | [] => [[]]
  | c :: rest =>
    match splitSemi rest with
    | [] => [[]]
    | cur :: out => if c = ';' then [] :: cur :: out else (c :: cur) :: out

/-- The open loop of `func Open(driverName, dataSourceNames string)` from
    db.go: for each connection string in order,
    `db.pdbs[i], err = sql.Open(driverName, conn)`, returning on the first
    error.  `f` is the collaborator `sql.Open(driverName, ·)`. -/
def openAll (f : List Char → Except ε κ) : List (List Char) → Except ε (List κ)
  | [] => .ok []
  | c :: cs =>
    match f c with
    | .error e => .error e
    | .ok k =>
      match openAll f cs with
      | .error e => .error e
      | .ok l => .ok (k :: l)

/-- `func Open(driverName, dataSourceNames string) (*DB, error)`:
    split on ';', open every chunk in order, and return the DB (counter
    zero-initialised) or the first open error. -/
def DB.Open (f : List Char → Except ε κ) (dataSourceNames : List Char) :
    Except ε (GoDB κ) :=
  match openAll f (splitSemi dataSourceNames) with
  | .error e => .error e
  | .ok l => .ok ⟨l, 0⟩

/-- Boolean success test for an `Except` result. -/
def isOkB : Except ε α → Bool
  | .ok _ => true
  | .error _ => false

/-- The action of scatter_test.go's TestScatter over `seq`, a Go int slice
    modelled as `List Int`: if `seq[i]` is even, square it in place and
    succeed; if odd, fail (the error carries the odd value that
    `fmt.Errorf` formats). -/
def oddSquareAct (i : Nat) (s : List Int) : List Int × Option Int :=
  let v := s.getD i 0
  if v % 2 = 0 then (s.set i (v * v), none) else (s, some v)

/-- A one-connection logical database (master only), for concrete checks. -/
def dbOne : GoDB Nat := ⟨[42], 7⟩

/-- A three-connection logical database, for concrete checks. -/
def db3 : GoDB Nat := ⟨[0, 1, 2], 0⟩

/-- A four-connection logical database whose counter sits just before the
    uint64 wrap, for concrete checks. -/
def dbWrap : GoDB Nat := ⟨[0, 1, 2, 3], 2 ^ 64 - 2⟩

/-- A four-connection logical database with a small counter, for concrete
    checks. -/
def dbW4 : GoDB Nat := ⟨[0, 1, 2, 3], 5⟩

/-- A three-handle aggregate statement over `db3`, for concrete checks. -/
def st3 : GoStmt Nat Nat := ⟨db3, [some 10, some 11, some 12]⟩

/-- Per-connection results that all succeed with nil error, for concrete
    checks. -/
def cNone : Nat → Option Nat := fun _ => none

/-- Per-connection prepare results that all succeed, for concrete checks. -/
def prOk : Nat → Except Nat Nat := fun i => .ok (i + 10)

/-- A collaborator open function that always succeeds, for concrete
    checks. -/
def f0 : List Char → Except Nat Nat := fun c => .ok c.length

/-- The two-element data-source-name string "a;b", for concrete checks. -/
def dsn0 : List Char := ['a', ';', 'b']

/-- An argument list ending in a true master marker, for concrete checks. -/
def aT : List (QArg Nat) := [QArg.value 7, QArg.onlyMaster true]

/-- An argument list ending in a false master marker, for concrete
    checks. -/
def aF : List (QArg Nat) := [QArg.value 7, QArg.onlyMaster false]

/-- An argument list with no marker, for concrete checks. -/
def aV : List (QArg Nat) := [QArg.value 7]

/-- The receive loop of the channel-based Close and Ping in db.go (the
    pan variant):
    `for i := 0; i < cap(errors); i++ { if err := <-errors; err != nil { return err } }`.
    Each of the n goroutines sends its result into a buffered channel;
    `arrived j` is the j-th result received, in the arrival order the
    scheduler produced.  `recvLoop arrived j k` runs the loop with `k`
    iterations remaining after `j` results have already been received, and
    returns the error the function returns together with the total number
    of branch results received before returning — the loop returns a
    non-nil error as soon as it is received, without receiving the
    remaining results. -/
def recvLoop (arrived : Nat → Option ε) : Nat → Nat → Option ε × Nat
  | j, 0 => (none, j)
  | j, k + 1 =>
    match arrived j with
    | some e => (some e, j + 1)
    | none => recvLoop arrived (j + 1) k

/-- `func (db *DB) Close() error` from db.go (the channel-based pan
    variant), lines 38-52: spawn one goroutine per physical database and
    run the receive loop over `cap(errors) = len(db.pdbs)` iterations.
    Returns the reported error and how many branch results had been
    received when the call returned. -/
def DB.CloseChan (arrived : Nat → Option ε) (db : GoDB κ) : Option ε × Nat :=
  recvLoop arrived 0 db.pdbs.length

/-- `func (db *DB) Ping() error` from db.go (the channel-based pan
    variant), lines 73-87: identical receive loop over the ping
    goroutines' buffered error channel. -/
def DB.PingChan (arrived : Nat → Option ε) (db : GoDB κ) : Option ε × Nat :=
  recvLoop arrived 0 db.pdbs.length

/-- A two-connection logical database, for concrete checks. -/
def dbTwo : GoDB Nat := ⟨[0, 1], 0⟩

/-- A channel arrival order whose first received branch result is a
    non-nil error, for concrete checks. -/
def arrBug : Nat → Option Nat := fun j => if j = 0 then some 5 else none

/-- The selector for `n ≤ 1` keeps the counter and returns index 0. -/
theorem slave_le_one (count : Nat) (n : Int) (h : n ≤ 1) :
    slave count n = (count, 0) := by
  unfold slave
  rw [if_pos h]

/-- The selector for `1 < n < 2^63` (every Go int that can exceed 1):
    the uint64 reductions drop out and the result is the incremented
    counter together with `1 + (newCount mod (n-1))`. -/
theorem slave_gt_one (count : Nat) (n : Int) (h1 : 1 < n) (h2 : n < 2 ^ 63) :
    slave count n =
      ((count + 1) % 2 ^ 64,
       ((1 + ((count + 1) % 2 ^ 64) % (n - 1).toNat : Nat) : Int)) := by
  have hpow : (2 : Nat) ^ 63 < 2 ^ 64 := by norm_num
  have htn : (n - 1).toNat < 2 ^ 63 := by omega
  have hm : (n - 1).toNat % 2 ^ 64 = (n - 1).toNat := by
    apply Nat.mod_eq_of_lt
    omega
  have hmpos : 0 < (n - 1).toNat := by omega
  have hmod : (1 + ((count + 1) % 2 ^ 64) % (n - 1).toNat) % 2 ^ 64 =
      1 + ((count + 1) % 2 ^ 64) % (n - 1).toNat := by
    apply Nat.mod_eq_of_lt
    have h3 : ((count + 1) % 2 ^ 64) % (n - 1).toNat < (n - 1).toNat :=
      Nat.mod_lt _ hmpos
    omega
  unfold slave
  rw [if_neg (by omega), hm, hmod]

/-- No natural and its successor agree modulo `m ≥ 2`. -/
theorem mod_succ_ne (a m : Nat) (hm : 2 ≤ m) : a % m ≠ (a + 1) % m := by
  have h1 : (a + 1) % m = (a % m + 1) % m := by
    conv_lhs => rw [Nat.add_mod]
    rw [Nat.mod_eq_of_lt (by omega : (1 : Nat) < m)]
  have h2 : a % m < m := Nat.mod_lt _ (by omega)
  rcases Nat.lt_or_ge (a % m + 1) m with h | h
  · rw [h1, Nat.mod_eq_of_lt h]
    omega
  · have h3 : a % m + 1 = m := by omega
    rw [h1, h3, Nat.mod_self]
    omega

/-- Claim C1: for a logical database with `n` physical connections, the
    replica selector returns 0 whenever `n ≤ 1`; whenever `n > 1` it stores
    the atomically incremented counter value `c` and returns
    `1 + (c mod (n-1))`, an index in `[1, n-1]`. -/
theorem claim_C1_slave_selector (db : GoDB κ) (hc : db.count < 2 ^ 64)
    (hn : db.pdbs.length < 2 ^ 63) :
    (db.pdbs.length ≤ 1 → DB.slaveCall db = (db, 0)) ∧
    (1 < db.pdbs.length →
      (DB.slaveCall db).1.pdbs = db.pdbs ∧
      (DB.slaveCall db).1.count = (db.count + 1) % 2 ^ 64 ∧
      (DB.slaveCall db).2 =
        ((1 + ((db.count + 1) % 2 ^ 64) % (db.pdbs.length - 1) : Nat) : Int) ∧
      1 ≤ (DB.slaveCall db).2 ∧
      (DB.slaveCall db).2 ≤ (db.pdbs.length : Int) - 1) := by
  constructor
  · intro h
    have h1 : (db.pdbs.length : Int) ≤ 1 := by omega
    simp [DB.slaveCall, slave_le_one _ _ h1]
  · intro h
    have h1 : (1 : Int) < (db.pdbs.length : Int) := by omega
    have h2 : (db.pdbs.length : Int) < 2 ^ 63 := by
      have : ((2 : Int) ^ 63) = Int.ofNat (2 ^ 63) := by norm_num
      omega
    have ht : ((db.pdbs.length : Int) - 1).toNat = db.pdbs.length - 1 := by
      omega
    have hmlt : ((db.count + 1) % 2 ^ 64) % (db.pdbs.length - 1) <
        db.pdbs.length - 1 := Nat.mod_lt _ (by omega)
    refine ⟨rfl, ?_, ?_, ?_, ?_⟩ <;>
      simp only [DB.slaveCall, slave_gt_one _ _ h1 h2, ht] <;> omega

/-- Claim C4 counterexample: with 4 physical connections and the counter at
    `2^64 - 2` (the state just before the uint64 wrap), two consecutive
    serialized selector calls both return index 1, because
    `2^64 - 1 ≡ 0 ≡ 0 + 0 (mod 3)` and the wrapped counter 0 also gives
    residue 0. -/
theorem claim_C4_counterexample :
    2 < dbWrap.pdbs.length ∧ dbWrap.count < 2 ^ 64 ∧
    (DB.slaveCall dbWrap).2 = 1 ∧
    (DB.slaveCall (DB.slaveCall dbWrap).1).2 = 1 := by
  refine ⟨by decide, by decide, ?_, ?_⟩ <;> decide

/-- Claim C4 (amended): for every connection count `n` with
    `2 < n < 2^63` and every counter state below `2^64` other than
    `2^64 - 2` (the one state where the second call's increment wraps),
    two consecutive serialized selector calls return distinct indices. -/
theorem claim_C4_amended (db : GoDB κ) (hc : db.count < 2 ^ 64)
    (hw : db.count ≠ 2 ^ 64 - 2) (h2 : 2 < db.pdbs.length)
    (h63 : db.pdbs.length < 2 ^ 63) :
    (DB.slaveCall db).2 ≠ (DB.slaveCall (DB.slaveCall db).1).2 := by
  have h1 : (1 : Int) < (db.pdbs.length : Int) := by omega
  have h2i : (db.pdbs.length : Int) < 2 ^ 63 := by
    have : ((2 : Int) ^ 63) = Int.ofNat (2 ^ 63) := by norm_num
    omega
  have ht : ((db.pdbs.length : Int) - 1).toNat = db.pdbs.length - 1 := by
    omega
  have hm2 : 2 ≤ db.pdbs.length - 1 := by omega
  have hU : (4 : Nat) ≤ 2 ^ 64 := by norm_num
  simp only [DB.slaveCall, slave_gt_one _ _ h1 h2i, ht]
  intro hEq
  have hNat : 1 + ((db.count + 1) % 2 ^ 64) % (db.pdbs.length - 1) =
      1 + (((db.count + 1) % 2 ^ 64 + 1) % 2 ^ 64) % (db.pdbs.length - 1) := by
    omega
  rcases Nat.lt_or_ge db.count (2 ^ 64 - 2) with hlt | hge
  · have hc1 : (db.count + 1) % 2 ^ 64 = db.count + 1 :=
      Nat.mod_eq_of_lt (by omega)
    have hc2 : (db.count + 1 + 1) % 2 ^ 64 = db.count + 1 + 1 :=
      Nat.mod_eq_of_lt (by omega)
    rw [hc1] at hNat
    rw [hc2] at hNat
    exact mod_succ_ne (db.count + 1) _ hm2 (by omega)
  · have hcw : db.count = 2 ^ 64 - 1 := by omega
    have hc1 : (db.count + 1) % 2 ^ 64 = 0 := by
      rw [hcw]
      have : 2 ^ 64 - 1 + 1 = 2 ^ 64 := by omega
      rw [this, Nat.mod_self]
    have hc2 : ((0 : Nat) + 1) % 2 ^ 64 = 1 := Nat.mod_eq_of_lt (by omega)
    rw [hc1] at hNat
    rw [hc2] at hNat
    have hz : (0 : Nat) % (db.pdbs.length - 1) = 0 := Nat.zero_mod _
    have ho : (1 : Nat) % (db.pdbs.length - 1) = 1 :=
      Nat.mod_eq_of_lt (by omega)
    omega

/-- Claim C4 amended, witnessed: with 4 connections and counter 5 the two
    consecutive selector calls return distinct indices. -/
theorem claim_C4_amended_witness :
    (DB.slaveCall dbW4).2 ≠ (DB.slaveCall (DB.slaveCall dbW4).1).2 :=
  claim_C4_amended dbW4 (by decide) (by decide) (by decide) (by decide)

/-- Claim C1, witnessed on a one-connection and a three-connection
    database. -/
theorem claim_C1_witness :
    DB.slaveCall dbOne = (dbOne, 0) ∧
    ((DB.slaveCall db3).1.pdbs = db3.pdbs ∧
     (DB.slaveCall db3).1.count = (db3.count + 1) % 2 ^ 64 ∧
     (DB.slaveCall db3).2 =
       ((1 + ((db3.count + 1) % 2 ^ 64) % (db3.pdbs.length - 1) : Nat) : Int) ∧
     1 ≤ (DB.slaveCall db3).2 ∧
     (DB.slaveCall db3).2 ≤ (db3.pdbs.length : Int) - 1) :=
  ⟨(claim_C1_slave_selector dbOne (by decide) (by decide)).1 (by decide),
   (claim_C1_slave_selector db3 (by decide) (by decide)).2 (by decide)⟩

/-- Every scatter run invokes exactly the indices `i, ..., i+k-1`, in that
    order, whatever the actions do. -/
theorem scatterAux_trace (act : Nat → σ → σ × Option ε) :
    ∀ k i s, (scatterAux act i k s).2.2 = List.range' i k := by
  intro k
  induction k with
  | zero => intro i s; rfl
  | succ k ih =>
    intro i s
    simp only [scatterAux, List.range']
    rw [ih]

/-- A scatter whose actions report errors independently of the threaded
    state reports exactly the first error. -/
theorem scatterAux_stateless (upd : Nat → σ → σ) (errs : Nat → Option ε) :
    ∀ k i s,
      (scatterAux (fun j t => (upd j t, errs j)) i k s).2.1 = firstErr errs i k := by
  intro k
  induction k with
  | zero => intro i s; rfl
  | succ k ih =>
    intro i s
    simp only [scatterAux, firstErr]
    cases he : errs i with
    | some e => simp [he]
    | none => simp [he, ih]

/-- `firstErr` is `none` exactly when every action in the window
    succeeds. -/
theorem firstErr_none_iff (errs : Nat → Option ε) :
    ∀ k i, firstErr errs i k = none ↔ ∀ j, i ≤ j → j < i + k → errs j = none := by
  intro k
  induction k with
  | zero =>
    intro i
    constructor
    · intro _ j h1 h2
      omega
    · intro _
      rfl
  | succ k ih =>
    intro i
    constructor
    · intro h j h1 h2
      cases he : errs i with
      | some e =>
        simp only [firstErr, he] at h
        exact absurd h (by simp)
      | none =>
        simp only [firstErr, he] at h
        rcases Nat.eq_or_lt_of_le h1 with heq | hlt
        · rw [← heq]
          exact he
        · exact (ih (i + 1)).mp h j hlt (by omega)
    · intro h
      have he : errs i = none := h i (Nat.le_refl i) (by omega)
      simp only [firstErr, he]
      exact (ih (i + 1)).mpr (fun j h1 h2 => h j (by omega) (by omega))

/-- A `some` result of `firstErr` is the error of some failing action in
    the window. -/
theorem firstErr_some (errs : Nat → Option ε) :
    ∀ k i e, firstErr errs i k = some e →
      ∃ j, i ≤ j ∧ j < i + k ∧ errs j = some e := by
  intro k
  induction k with
  | zero =>
    intro i e h
    exact absurd h (by simp [firstErr])
  | succ k ih =>
    intro i e h
    cases he : errs i with
    | some e2 =>
      simp only [firstErr, he] at h
      exact ⟨i, Nat.le_refl i, by omega, by rw [he, h]⟩
    | none =>
      simp only [firstErr, he] at h
      rcases ih (i + 1) e h with ⟨j, hj1, hj2, hj3⟩
      exact ⟨j, by omega, by omega, hj3⟩

/-- `firstErr` from index 0 is `none` exactly when every indexed action
    succeeds. -/
theorem firstErr_zero_none_iff (errs : Nat → Option ε) (n : Nat) :
    firstErr errs 0 n = none ↔ ∀ i < n, errs i = none := by
  rw [firstErr_none_iff]
  constructor
  · intro h i hi
    exact h i (Nat.zero_le i) (by omega)
  · intro h j _ hj
    exact h j (by omega)

/-- A `some` result of `firstErr` from index 0 comes from a failing
    action below `n`. -/
theorem firstErr_zero_some (errs : Nat → Option ε) (n : Nat) (e : ε)
    (h : firstErr errs 0 n = some e) : ∃ i, i < n ∧ errs i = some e := by
  rcases firstErr_some errs n 0 e h with ⟨j, _, hj2, hj3⟩
  exact ⟨j, by omega, hj3⟩

/-- `db.Close()` reports the first close error. -/
theorem DB.Close_eq (ce : Nat → Option ε) (db : GoDB κ) :
    DB.Close ce db = firstErr ce 0 db.pdbs.length :=
  scatterAux_stateless (fun _ t => t) ce db.pdbs.length 0 ()

/-- `db.Ping()` reports the first ping error. -/
theorem DB.Ping_eq (pe : Nat → Option ε) (db : GoDB κ) :
    DB.Ping pe db = firstErr pe 0 db.pdbs.length :=
  scatterAux_stateless (fun _ t => t) pe db.pdbs.length 0 ()

/-- `s.Close()` on an aggregate statement reports the first close error. -/
theorem stmtClose_eq (sce : Nat → Option ε) (s : GoStmt κ η) :
    stmtClose sce s = firstErr sce 0 s.stmts.length :=
  scatterAux_stateless (fun _ t => t) sce s.stmts.length 0 ()

/-- The error component of Prepare's scatter is the first prepare error. -/
theorem PrepareFull_err (pr : Nat → Except ε η) (db : GoDB κ) :
    (DB.PrepareFull pr db).2.1 = firstErr (prepErr pr) 0 db.pdbs.length :=
  scatterAux_stateless (prepUpd pr) (prepErr pr) db.pdbs.length 0 _

/-- The per-index prepare action succeeds exactly when the collaborator
    prepare succeeds. -/
theorem prepErr_none_iff (pr : Nat → Except ε η) (i : Nat) :
    prepErr pr i = none ↔ isOkB (pr i) = true := by
  cases h : pr i <;> simp [prepErr, isOkB, h]

/-- The per-index prepare action fails with exactly the collaborator
    error. -/
theorem prepErr_some_iff (pr : Nat → Except ε η) (i : Nat) (e : ε) :
    prepErr pr i = some e ↔ pr i = .error e := by
  cases h : pr i <;> simp [prepErr, h]

/-- `db.Prepare` either succeeds with the scatter-built handle list (when
    the scatter reports no error) or forwards the scatter's error. -/
theorem Prepare_cases (pr : Nat → Except ε η) (db : GoDB κ) :
    ((DB.PrepareFull pr db).2.1 = none ∧
      DB.Prepare pr db = .ok ⟨db, (DB.PrepareFull pr db).1⟩) ∨
    (∃ e, (DB.PrepareFull pr db).2.1 = some e ∧
      DB.Prepare pr db = .error e) := by
  rcases hP : DB.PrepareFull pr db with ⟨stmts, e, tr⟩
  cases e with
  | none =>
    left
    exact ⟨rfl, by simp only [DB.Prepare, hP]⟩
  | some e2 =>
    right
    exact ⟨e2, rfl, by simp only [DB.Prepare, hP]⟩

/-- `db.Prepare` succeeds exactly when every physical connection prepares
    successfully. -/
theorem Prepare_ok_iff (pr : Nat → Except ε η) (db : GoDB κ) :
    (∃ st, DB.Prepare pr db = .ok st) ↔
      ∀ i < db.pdbs.length, isOkB (pr i) = true := by
  rcases Prepare_cases pr db with ⟨hnone, hok⟩ | ⟨e, hsome, herr⟩
  · rw [PrepareFull_err pr db] at hnone
    constructor
    · intro _ i hi
      have := (firstErr_zero_none_iff (prepErr pr) db.pdbs.length).mp hnone i hi
      exact (prepErr_none_iff pr i).mp this
    · intro _
      exact ⟨_, hok⟩
  · rw [PrepareFull_err pr db] at hsome
    rcases firstErr_zero_some _ _ _ hsome with ⟨i, hi, hpe⟩
    have hperr : pr i = .error e := (prepErr_some_iff pr i e).mp hpe
    constructor
    · rintro ⟨s2, hs2⟩
      rw [herr] at hs2
      exact absurd hs2 (by simp)
    · intro hall
      have hbad := hall i hi
      rw [hperr] at hbad
      exact absurd hbad (by simp [isOkB])

/-- An error from `db.Prepare` is the prepare error of some connection. -/
theorem Prepare_error_spec (pr : Nat → Except ε η) (db : GoDB κ) (e : ε)
    (h : DB.Prepare pr db = .error e) :
    ∃ i, i < db.pdbs.length ∧ pr i = .error e := by
  rcases Prepare_cases pr db with ⟨hnone, hok⟩ | ⟨e2, hsome, herr⟩
  · rw [hok] at h
    exact absurd h (by simp)
  · rw [herr] at h
    have he : e2 = e := by
      injection h
    rw [he] at hsome
    rw [PrepareFull_err pr db] at hsome
    rcases firstErr_zero_some _ _ _ hsome with ⟨i, hi, hpe⟩
    exact ⟨i, hi, (prepErr_some_iff pr i e).mp hpe⟩

/-- Claim C3: every fan-out operation built on scatter (DB.Close, DB.Ping,
    DB.Prepare, statement Close) succeeds exactly when every branch
    succeeds, otherwise returns one of the errors observed among the
    failing branches; with zero branches it succeeds immediately. -/
theorem claim_C3_fanout (db : GoDB κ) (st : GoStmt κ η)
    (ce pe sce : Nat → Option ε) (pr : Nat → Except ε η) :
    (DB.Close ce db = none ↔ ∀ i < db.pdbs.length, ce i = none) ∧
    (∀ e, DB.Close ce db = some e → ∃ i, i < db.pdbs.length ∧ ce i = some e) ∧
    (DB.Ping pe db = none ↔ ∀ i < db.pdbs.length, pe i = none) ∧
    (∀ e, DB.Ping pe db = some e → ∃ i, i < db.pdbs.length ∧ pe i = some e) ∧
    (stmtClose sce st = none ↔ ∀ i < st.stmts.length, sce i = none) ∧
    (∀ e, stmtClose sce st = some e →
      ∃ i, i < st.stmts.length ∧ sce i = some e) ∧
    ((∃ s2, DB.Prepare pr db = .ok s2) ↔
      ∀ i < db.pdbs.length, isOkB (pr i) = true) ∧
    (∀ e, DB.Prepare pr db = .error e →
      ∃ i, i < db.pdbs.length ∧ pr i = .error e) ∧
    (db.pdbs.length = 0 →
      DB.Close ce db = none ∧ DB.Ping pe db = none ∧
      ∃ s2, DB.Prepare pr db = .ok s2) ∧
    (st.stmts.length = 0 → stmtClose sce st = none) := by
  refine ⟨?_, ?_, ?_, ?_, ?_, ?_, ?_, ?_, ?_, ?_⟩
  · rw [DB.Close_eq]
    exact firstErr_zero_none_iff ce db.pdbs.length
  · intro e he
    rw [DB.Close_eq] at he
    exact firstErr_zero_some _ _ _ he
  · rw [DB.Ping_eq]
    exact firstErr_zero_none_iff pe db.pdbs.length
  · intro e he
    rw [DB.Ping_eq] at he
    exact firstErr_zero_some _ _ _ he
  · rw [stmtClose_eq]
    exact firstErr_zero_none_iff sce st.stmts.length
  · intro e he
    rw [stmtClose_eq] at he
    exact firstErr_zero_some _ _ _ he
  · exact Prepare_ok_iff pr db
  · exact Prepare_error_spec pr db
  · intro h0
    refine ⟨?_, ?_, ?_⟩
    · rw [DB.Close_eq, h0]
      rfl
    · rw [DB.Ping_eq, h0]
      rfl
    · exact (Prepare_ok_iff pr db).mpr (fun i hi => absurd hi (by omega))
  · intro h0
    rw [stmtClose_eq, h0]
    rfl

/-- Claim C3, witnessed: with three connections and all branches
    succeeding, Close reports nil and Prepare yields a statement. -/
theorem claim_C3_fanout_witness :
    DB.Close cNone db3 = none ∧ ∃ s2, DB.Prepare prOk db3 = .ok s2 :=
  ⟨(claim_C3_fanout db3 st3 cNone cNone cNone prOk).1.mpr (by decide),
   (claim_C3_fanout db3 st3 cNone cNone cNone prOk).2.2.2.2.2.2.1.mpr
     (by decide)⟩

/-- The scatter-based fan-out operations (the nap variant) do drain every
    branch: each operation's invocation trace is exactly `0, ..., n-1`
    before the operation returns its outcome, whatever errors the branches
    report.  The channel-based pan variant of Close and Ping does not
    share this property; see the Claim C9 theorem below. -/
theorem scatterFanout_drains_all (db : GoDB κ) (st : GoStmt κ η)
    (ce pe sce : Nat → Option ε) (pr : Nat → Except ε η) :
    (DB.CloseFull ce db).2.2 = List.range db.pdbs.length ∧
    (DB.PingFull pe db).2.2 = List.range db.pdbs.length ∧
    (DB.PrepareFull pr db).2.2 = List.range db.pdbs.length ∧
    (stmtCloseFull sce st).2.2 = List.range st.stmts.length := by
  refine ⟨?_, ?_, ?_, ?_⟩ <;> rw [List.range_eq_range'] <;>
    exact scatterAux_trace _ _ 0 _

/-- Claim C9 fails on db.go's channel-based Close and Ping: their receive
    loop returns the first non-nil error as soon as it arrives.  With two
    physical connections and the failing branch's result arriving first,
    both calls return the error having received only one of the two branch
    results, so the outcome is reported while the other branch may still
    be running — against the claim's (and spec section 5's) guarantee that
    every branch is drained before the call returns. -/
theorem claim_C9_channel_bug :
    dbTwo.pdbs.length = 2 ∧
    DB.CloseChan arrBug dbTwo = (some 5, 1) ∧
    DB.PingChan arrBug dbTwo = (some 5, 1) ∧
    (DB.CloseChan arrBug dbTwo).2 < dbTwo.pdbs.length ∧
    (DB.PingChan arrBug dbTwo).2 < dbTwo.pdbs.length := by
  refine ⟨rfl, ?_, ?_, ?_, ?_⟩ <;> decide

/-- Claim C8: scatter over the sequence 1..8 with the square-if-even,
    fail-if-odd action yields an overall failure, transforms the sequence
    to `[1,4,3,16,5,36,7,64]`, and still runs all 8 actions exactly
    once. -/
theorem claim_C8_scatter_test :
    (scatter 8 oddSquareAct [1, 2, 3, 4, 5, 6, 7, 8]).1 =
      [1, 4, 3, 16, 5, 36, 7, 64] ∧
    (scatter 8 oddSquareAct [1, 2, 3, 4, 5, 6, 7, 8]).2.1.isSome = true ∧
    (scatter 8 oddSquareAct [1, 2, 3, 4, 5, 6, 7, 8]).2.2 = List.range 8 := by
  refine ⟨?_, ?_, ?_⟩ <;> decide

/-- Claim C2: DB.Exec and DB.Begin call into the physical connection at
    index 0 (the master) and the aggregate statement's Exec calls into the
    handle at index 0; changing the replicas (or the counter state) never
    changes which connection these write paths touch. -/
theorem claim_C2_master_only (master : κ) (rest rest2 : List κ) (c c2 : Nat)
    (h0 : Option η) (hs : List (Option η)) (d : GoDB κ) :
    DB.ExecConn ⟨master :: rest, c⟩ = some master ∧
    DB.BeginConn ⟨master :: rest, c⟩ = some master ∧
    stmtExecHandle ⟨d, h0 :: hs⟩ = some h0 ∧
    DB.ExecConn ⟨master :: rest, c⟩ = DB.ExecConn ⟨master :: rest2, c2⟩ ∧
    DB.BeginConn ⟨master :: rest, c⟩ = DB.BeginConn ⟨master :: rest2, c2⟩ :=
  ⟨rfl, rfl, rfl, rfl, rfl⟩

/-- When the last argument is a true master marker, `stmt.Query` strips it
    and uses handle 0 without touching the counter. -/
theorem stmtQuery_master (s : GoStmt κ η) (args : List (QArg α))
    (h : args.getLast? = some (QArg.onlyMaster true)) :
    stmtQuery s args = (0, args.dropLast, s.db.count) := by
  have hne : args ≠ [] := by
    intro he
    rw [he] at h
    simp at h
  have hlen : ¬ args.length = 0 := by
    simpa using hne
  simp only [stmtQuery]
  rw [if_neg hlen, h]

/-- When the last argument is a true master marker, `stmt.QueryRow` strips
    it and uses handle 0 without touching the counter. -/
theorem stmtQueryRow_master (s : GoStmt κ η) (args : List (QArg α))
    (h : args.getLast? = some (QArg.onlyMaster true)) :
    stmtQueryRow s args = (0, args.dropLast, s.db.count) := by
  have hne : args ≠ [] := by
    intro he
    rw [he] at h
    simp at h
  have hlen : ¬ args.length = 0 := by
    simpa using hne
  simp only [stmtQueryRow]
  rw [if_neg hlen, h]

/-- When the arguments do not end in a true master marker, `stmt.Query`
    runs the selector and forwards the arguments unchanged to the chosen
    handle. -/
theorem stmtQuery_nonmaster (s : GoStmt κ η) (args : List (QArg α))
    (h : args.getLast? ≠ some (QArg.onlyMaster true)) :
    stmtQuery s args =
      ((slave s.db.count ((s.db.pdbs.length : Int))).2, args,
       (slave s.db.count ((s.db.pdbs.length : Int))).1) := by
  simp only [stmtQuery]
  split
  · rfl
  · rfl

/-- When the arguments do not end in a true master marker, `stmt.QueryRow`
    runs the selector and forwards the arguments unchanged to the chosen
    handle. -/
theorem stmtQueryRow_nonmaster (s : GoStmt κ η) (args : List (QArg α))
    (h : args.getLast? ≠ some (QArg.onlyMaster true)) :
    stmtQueryRow s args =
      ((slave s.db.count ((s.db.pdbs.length : Int))).2, args,
       (slave s.db.count ((s.db.pdbs.length : Int))).1) := by
  simp only [stmtQueryRow]
  split
  · rfl
  · rfl

/-- Claim C5: if the final argument is the route-to-master marker with
    value true, Query and QueryRow strip it and run on the master handle
    (index 0); for every argument list not ending in such a marker they run
    on the selector-chosen handle with the arguments unchanged. -/
theorem claim_C5_master_marker (s : GoStmt κ η) (args : List (QArg α)) :
    (args.getLast? = some (QArg.onlyMaster true) →
      stmtQuery s args = (0, args.dropLast, s.db.count) ∧
      stmtQueryRow s args = (0, args.dropLast, s.db.count)) ∧
    (args.getLast? ≠ some (QArg.onlyMaster true) →
      stmtQuery s args =
        ((slave s.db.count ((s.db.pdbs.length : Int))).2, args,
         (slave s.db.count ((s.db.pdbs.length : Int))).1) ∧
      stmtQueryRow s args =
        ((slave s.db.count ((s.db.pdbs.length : Int))).2, args,
         (slave s.db.count ((s.db.pdbs.length : Int))).1)) :=
  ⟨fun h => ⟨stmtQuery_master s args h, stmtQueryRow_master s args h⟩,
   fun h => ⟨stmtQuery_nonmaster s args h, stmtQueryRow_nonmaster s args h⟩⟩

/-- Claim C5, witnessed on a marker-terminated and a marker-free argument
    list. -/
theorem claim_C5_witness :
    (stmtQuery st3 aT = (0, aT.dropLast, st3.db.count) ∧
     stmtQueryRow st3 aT = (0, aT.dropLast, st3.db.count)) ∧
    (stmtQuery st3 aV =
       ((slave st3.db.count ((st3.db.pdbs.length : Int))).2, aV,
        (slave st3.db.count ((st3.db.pdbs.length : Int))).1) ∧
     stmtQueryRow st3 aV =
       ((slave st3.db.count ((st3.db.pdbs.length : Int))).2, aV,
        (slave st3.db.count ((st3.db.pdbs.length : Int))).1)) :=
  ⟨(claim_C5_master_marker st3 aT).1 (by decide),
   (claim_C5_master_marker st3 aV).2 (by decide)⟩

/-- Claim C10: a final OnlyMaster marker with value false is not stripped:
    Query and QueryRow route to the selector-chosen handle and forward the
    complete argument list, marker included. -/
theorem claim_C10_false_marker (s : GoStmt κ η) (args : List (QArg α))
    (h : args.getLast? = some (QArg.onlyMaster false)) :
    stmtQuery s args =
      ((slave s.db.count ((s.db.pdbs.length : Int))).2, args,
       (slave s.db.count ((s.db.pdbs.length : Int))).1) ∧
    stmtQueryRow s args =
      ((slave s.db.count ((s.db.pdbs.length : Int))).2, args,
       (slave s.db.count ((s.db.pdbs.length : Int))).1) := by
  have hne : args.getLast? ≠ some (QArg.onlyMaster true) := by
    rw [h]
    simp
  exact ⟨stmtQuery_nonmaster s args hne, stmtQueryRow_nonmaster s args hne⟩

/-- Claim C10, witnessed on an argument list ending in a false marker. -/
theorem claim_C10_witness :
    stmtQuery st3 aF =
      ((slave st3.db.count ((st3.db.pdbs.length : Int))).2, aF,
       (slave st3.db.count ((st3.db.pdbs.length : Int))).1) ∧
    stmtQueryRow st3 aF =
      ((slave st3.db.count ((st3.db.pdbs.length : Int))).2, aF,
       (slave st3.db.count ((st3.db.pdbs.length : Int))).1) :=
  claim_C10_false_marker st3 aF (by decide)

/-- The per-index prepare update never changes the handle-list length. -/
theorem prepUpd_length (pr : Nat → Except ε η) (i : Nat) (l : List (Option η)) :
    (prepUpd pr i l).length = l.length := by
  unfold prepUpd
  cases pr i <;> simp

/-- Prepare's scatter never changes the handle-list length. -/
theorem scatterPrep_length (pr : Nat → Except ε η) :
    ∀ k i (l : List (Option η)),
      ((scatterAux (fun a t => (prepUpd pr a t, prepErr pr a)) i k l).1).length
        = l.length := by
  intro k
  induction k with
  | zero => intro i l; rfl
  | succ k ih =>
    intro i l
    show ((scatterAux (fun a t => (prepUpd pr a t, prepErr pr a)) (i + 1) k
      (prepUpd pr i l)).1).length = l.length
    rw [ih (i + 1) (prepUpd pr i l), prepUpd_length]

/-- Prepare's scatter leaves slots below its starting index untouched. -/
theorem scatterPrep_keep (pr : Nat → Except ε η) :
    ∀ k i (l : List (Option η)) j, j < i →
      ((scatterAux (fun a t => (prepUpd pr a t, prepErr pr a)) i k l).1).get? j
        = l.get? j := by
  intro k
  induction k with
  | zero => intro i l j hj; rfl
  | succ k ih =>
    intro i l j hj
    show ((scatterAux (fun a t => (prepUpd pr a t, prepErr pr a)) (i + 1) k
      (prepUpd pr i l)).1).get? j = l.get? j
    rw [ih (i + 1) _ j (by omega)]
    unfold prepUpd
    cases pr i with
    | ok h => exact List.get?_set_ne _ _ (by omega)
    | error e => rfl

/-- Prepare's scatter fills every successfully prepared slot in its window
    with that connection's handle. -/
theorem scatterPrep_get (pr : Nat → Except ε η) :
    ∀ k i (l : List (Option η)) j h, i ≤ j → j < i + k → j < l.length →
      pr j = .ok h →
      ((scatterAux (fun a t => (prepUpd pr a t, prepErr pr a)) i k l).1).get? j
        = some (some h) := by
  intro k
  induction k with
  | zero =>
    intro i l j h h1 h2 h3 h4
    omega
  | succ k ih =>
    intro i l j h h1 h2 h3 h4
    show ((scatterAux (fun a t => (prepUpd pr a t, prepErr pr a)) (i + 1) k
      (prepUpd pr i l)).1).get? j = some (some h)
    rcases Nat.eq_or_lt_of_le h1 with heq | hlt
    · subst heq
      rw [scatterPrep_keep pr k (i + 1) _ i (by omega)]
      unfold prepUpd
      rw [h4]
      exact List.get?_set_eq_of_lt _ h3
    · exact ih (i + 1) (prepUpd pr i l) j h hlt (by omega)
        (by rw [prepUpd_length]; exact h3) h4

/-- The handle list built by Prepare's scatter has one slot per physical
    connection. -/
theorem PrepareFull_length (pr : Nat → Except ε η) (db : GoDB κ) :
    ((DB.PrepareFull pr db).1).length = db.pdbs.length := by
  have h := scatterPrep_length pr db.pdbs.length 0
    (List.replicate db.pdbs.length none)
  rw [List.length_replicate] at h
  exact h

/-- Every successfully prepared slot of the handle list built by Prepare's
    scatter holds that connection's handle. -/
theorem PrepareFull_get (pr : Nat → Except ε η) (db : GoDB κ) (i : Nat)
    (h : η) (hi : i < db.pdbs.length) (hok : pr i = .ok h) :
    ((DB.PrepareFull pr db).1).get? i = some (some h) :=
  scatterPrep_get pr db.pdbs.length 0 (List.replicate db.pdbs.length none) i h
    (Nat.zero_le i) (by omega) (by rw [List.length_replicate]; exact hi) hok

/-- Claim C6: Prepare returns an aggregate statement exactly when every
    physical connection prepares successfully; on any failure it returns an
    error and no statement; every statement it returns points back at the
    database and holds one prepared handle per physical connection, with
    the handle-list length equal to the connection-list length. -/
theorem claim_C6_prepare (db : GoDB κ) (pr : Nat → Except ε η) :
    ((∃ st, DB.Prepare pr db = .ok st) ↔
      ∀ i < db.pdbs.length, isOkB (pr i) = true) ∧
    (∀ st, DB.Prepare pr db = .ok st →
      st.db = db ∧ st.stmts.length = db.pdbs.length ∧
      ∀ i h, i < db.pdbs.length → pr i = .ok h →
        st.stmts.get? i = some (some h)) ∧
    (∀ e, DB.Prepare pr db = .error e →
      ∃ i, i < db.pdbs.length ∧ pr i = .error e) := by
  refine ⟨Prepare_ok_iff pr db, ?_, Prepare_error_spec pr db⟩
  intro st hst
  rcases Prepare_cases pr db with ⟨hnone, hok⟩ | ⟨e, hsome, herr⟩
  · rw [hok] at hst
    injection hst with hst2
    rw [← hst2]
    refine ⟨rfl, PrepareFull_length pr db, ?_⟩
    intro i h hi hpr
    exact PrepareFull_get pr db i h hi hpr
  · rw [herr] at hst
    exact absurd hst (by simp)

/-- Claim C6, witnessed: preparing on three connections where every
    prepare succeeds yields exactly the statement `st3` with one handle
    per connection. -/
theorem claim_C6_witness :
    st3.db = db3 ∧ st3.stmts.length = db3.pdbs.length ∧
    ∀ i h, i < db3.pdbs.length → prOk i = .ok h →
      st3.stmts.get? i = some (some h) :=
  (claim_C6_prepare db3 prOk).2.1 st3 (by rfl)

/-- Splitting a string on ';' always yields at least one chunk. -/
theorem splitSemi_ne_nil : ∀ s : List Char, splitSemi s ≠ [] := by
  intro s
  induction s with
  | nil => simp [splitSemi]
  | cons c rest ih =>
    simp only [splitSemi]
    split
    · simp
    · split <;> simp

/-- The open loop succeeds exactly when every connection string opens. -/
theorem openAll_ok_iff (f : List Char → Except ε κ) :
    ∀ cs : List (List Char),
      (∃ l, openAll f cs = .ok l) ↔ ∀ c ∈ cs, isOkB (f c) = true := by
  intro cs
  induction cs with
  | nil =>
    constructor
    · intro _ c hc
      exact absurd hc (by simp)
    · intro _
      exact ⟨[], rfl⟩
  | cons c cs ih =>
    cases hf : f c with
    | error e =>
      simp only [openAll, hf]
      constructor
      · rintro ⟨l, hl⟩
        exact absurd hl (by simp)
      · intro h
        have hc := h c (by simp)
        rw [hf] at hc
        exact absurd hc (by simp [isOkB])
    | ok k =>
      simp only [openAll, hf]
      cases ho : openAll f cs with
      | error e =>
        constructor
        · rintro ⟨l, hl⟩
          exact absurd hl (by simp)
        · intro h
          rcases ih.mpr (fun c2 hc2 => h c2 (by simp [hc2])) with ⟨l, hl⟩
          rw [ho] at hl
          exact absurd hl (by simp)
      | ok l =>
        constructor
        · intro _ c2 hc2
          rcases List.mem_cons.mp hc2 with heq | hmem
          · rw [heq, hf]
            rfl
          · exact ih.mp ⟨l, ho⟩ c2 hmem
        · intro _
          exact ⟨k :: l, rfl⟩

/-- A successful open loop opens every connection string in order. -/
theorem openAll_ok_spec (f : List Char → Except ε κ) :
    ∀ (cs : List (List Char)) (l : List κ), openAll f cs = .ok l →
      l.length = cs.length ∧
      ∀ i, i < cs.length →
        ∃ c k, cs.get? i = some c ∧ f c = .ok k ∧ l.get? i = some k := by
  intro cs
  induction cs with
  | nil =>
    intro l hl
    have hl2 : Except.ok (ε := ε) ([] : List κ) = .ok l := hl
    injection hl2 with hl3
    rw [← hl3]
    exact ⟨rfl, fun i hi => absurd hi (by simp)⟩
  | cons c cs ih =>
    intro l hl
    simp only [openAll] at hl
    cases hf : f c with
    | error e =>
      rw [hf] at hl
      exact absurd hl (by simp)
    | ok k =>
      rw [hf] at hl
      cases ho : openAll f cs with
      | error e =>
        rw [ho] at hl
        exact absurd hl (by simp)
      | ok l2 =>
        rw [ho] at hl
        have hl2 : Except.ok (ε := ε) (k :: l2) = .ok l := hl
        injection hl2 with hl3
        rw [← hl3]
        rcases ih l2 ho with ⟨hlen, hget⟩
        constructor
        · simp [hlen]
        · intro i hi
          cases i with
          | zero => exact ⟨c, k, rfl, hf, rfl⟩
          | succ i2 =>
            rcases hget i2 (by simpa using hi) with ⟨c2, k2, hc2, hk2, hl4⟩
            exact ⟨c2, k2, hc2, hk2, hl4⟩

/-- A failed open loop fails with the error of the first failing
    connection string; everything before it opened successfully. -/
theorem openAll_error_spec (f : List Char → Except ε κ) :
    ∀ (cs : List (List Char)) (e : ε), openAll f cs = .error e →
      ∃ i c, cs.get? i = some c ∧ f c = .error e ∧
        ∀ j, j < i → ∀ c2, cs.get? j = some c2 → ∃ k2, f c2 = .ok k2 := by
  intro cs
  induction cs with
  | nil =>
    intro e he
    exact absurd he (by simp [openAll])
  | cons c cs ih =>
    intro e he
    simp only [openAll] at he
    cases hf : f c with
    | error e2 =>
      rw [hf] at he
      have he2 : Except.error (α := List κ) e2 = .error e := he
      injection he2 with he3
      rw [← he3]
      exact ⟨0, c, rfl, hf, fun j hj => absurd hj (by omega)⟩
    | ok k =>
      rw [hf] at he
      cases ho : openAll f cs with
      | ok l =>
        rw [ho] at he
        exact absurd he (by simp)
      | error e2 =>
        rw [ho] at he
        have he2 : Except.error (α := List κ) e2 = .error e := he
        injection he2 with he3
        rw [← he3]
        rcases ih e2 ho with ⟨i, c2, hc2, herr, hpre⟩
        refine ⟨i + 1, c2, hc2, herr, ?_⟩
        intro j hj c3 hc3
        cases j with
        | zero =>
          have hc4 : some c = some c3 := hc3
          injection hc4 with hc5
          rw [← hc5]
          exact ⟨k, hf⟩
        | succ j2 => exact hpre j2 (by omega) c3 hc3

/-- Claim C7: Open splits the data-source names on ';' (element 0 being
    the master), opens one physical connection per element in order, and
    returns a database exactly when every open succeeds; the database's
    counter starts at 0 and it always has at least one connection; on any
    failure it returns no database and the first open error encountered. -/
theorem claim_C7_open (f : List Char → Except ε κ) (dsns : List Char) :
    ((∃ db, DB.Open f dsns = .ok db) ↔
      ∀ c ∈ splitSemi dsns, isOkB (f c) = true) ∧
    (∀ db, DB.Open f dsns = .ok db →
      db.count = 0 ∧
      db.pdbs.length = (splitSemi dsns).length ∧
      1 ≤ db.pdbs.length ∧
      ∀ i, i < (splitSemi dsns).length →
        ∃ c k, (splitSemi dsns).get? i = some c ∧ f c = .ok k ∧
          db.pdbs.get? i = some k) ∧
    (∀ e, DB.Open f dsns = .error e →
      (∀ db2, DB.Open f dsns ≠ .ok db2) ∧
      ∃ i c, (splitSemi dsns).get? i = some c ∧ f c = .error e ∧
        ∀ j, j < i → ∀ c2, (splitSemi dsns).get? j = some c2 →
          ∃ k, f c2 = .ok k) := by
  cases ho : openAll f (splitSemi dsns) with
  | ok l =>
    have hOpen : DB.Open f dsns = .ok ⟨l, 0⟩ := by
      simp only [DB.Open, ho]
    rcases openAll_ok_spec f _ l ho with ⟨hlen, hget⟩
    refine ⟨?_, ?_, ?_⟩
    · constructor
      · intro _
        exact (openAll_ok_iff f _).mp ⟨l, ho⟩
      · intro _
        exact ⟨⟨l, 0⟩, hOpen⟩
    · intro db hdb
      rw [hOpen] at hdb
      injection hdb with hdb2
      rw [← hdb2]
      have hpos : 0 < (splitSemi dsns).length :=
        List.length_pos.mpr (splitSemi_ne_nil dsns)
      have h1 : 1 ≤ l.length := by omega
      exact ⟨rfl, hlen, h1, hget⟩
    · intro e he
      rw [hOpen] at he
      exact absurd he (by simp)
  | error e2 =>
    have hOpen : DB.Open f dsns = .error e2 := by
      simp only [DB.Open, ho]
    refine ⟨?_, ?_, ?_⟩
    · constructor
      · rintro ⟨db, hdb⟩
        rw [hOpen] at hdb
        exact absurd hdb (by simp)
      · intro hall
        rcases (openAll_ok_iff f _).mpr hall with ⟨l, hl⟩
        rw [ho] at hl
        exact absurd hl (by simp)
    · intro db hdb
      rw [hOpen] at hdb
      exact absurd hdb (by simp)
    · intro e he
      rw [hOpen] at he
      injection he with he2
      rw [← he2]
      refine ⟨?_, openAll_error_spec f _ e2 ho⟩
      intro db2 hdb2
      rw [hOpen] at hdb2
      exact absurd hdb2 (by simp)

/-- Claim C7, witnessed: opening "a;b" with an always-succeeding
    collaborator yields a database. -/
theorem claim_C7_witness : ∃ db, DB.Open f0 dsn0 = .ok db :=
  (claim_C7_open f0 dsn0).1.mpr (by decide)

end Nap
